import Mathlib

/-!
Shallow embedding of the LoRaWAN frame-header codec (`fhdr.go`).

Bytes are modelled as `Nat` values (the Go code works on `[]byte`; every
value the code can actually store in a byte is `< 256`, and the few places
where Go's fixed-width integer types truncate are made explicit with `% 256`
or `% 65536`).  Fallible operations return `Except String`; the in-place
mutation of `FHDR.UnmarshalBinary` (pointer receiver in Go) is made explicit
by returning the final header state together with an optional error.
-/

set_option maxRecDepth 10000

/-- `binary.LittleEndian.PutUint16`: low byte first. -/
def putUint16 (v : Nat) : List Nat := [v % 256, v / 256 % 256]

/-- `binary.LittleEndian.Uint16`. -/
def getUint16 (b0 b1 : Nat) : Nat := b0 + 256 * b1

/-- `binary.LittleEndian.PutUint32`: low byte first. -/
def putUint32 (v : Nat) : List Nat :=
  [v % 256, v / 256 % 256, v / 65536 % 256, v / 16777216 % 256]

/-- `binary.LittleEndian.Uint32`. -/
def getUint32 (b0 b1 b2 b3 : Nat) : Nat :=
  b0 + 256 * b1 + 65536 * b2 + 16777216 * b3

/-- `DevAddr.MarshalBinary`: 4 bytes, little-endian.  The Go method always
returns a nil error, so it is modelled as a total function. -/
def DevAddr.MarshalBinary (a : Nat) : List Nat := putUint32 a

/-- `DevAddr.UnmarshalBinary`: exactly 4 bytes expected. -/
def DevAddr.UnmarshalBinary (data : List Nat) : Except String Nat :=
  match data with
  | [b0, b1, b2, b3] => .ok (getUint32 b0 b1 b2 b3)
  | _ => .error "lorawan: 4 bytes of data are expected"

/-- `FCtrl` (frame control field).  `fOptsLen` is a Go `uint8`. -/
structure FCtrl where
  ADR : Bool
  ADRACKReq : Bool
  ACK : Bool
  FPending : Bool
  fOptsLen : Nat
deriving DecidableEq, Repr

/-- `FCtrl.MarshalBinary`: packs the flag byte exactly as the Go code does,
starting from `fOptsLen` and xor-ing in single bits. -/
def FCtrl.MarshalBinary (c : FCtrl) : Except String (List Nat) :=
  if c.fOptsLen > 15 then .error "lorawan: max value of FOptsLen is 15"
  else
    let b0 := c.fOptsLen
    let b1 := if c.FPending then b0 ^^^ (1 <<< 4) else b0
    let b2 := if c.ACK then b1 ^^^ (1 <<< 5) else b1
    let b3 := if c.ADRACKReq then b2 ^^^ (1 <<< 6) else b2
    let b4 := if c.ADR then b3 ^^^ (1 <<< 7) else b3
    .ok [b4]

/-- `FCtrl.UnmarshalBinary`: exactly 1 byte expected; unpacks the bit layout. -/
def FCtrl.UnmarshalBinary (data : List Nat) : Except String FCtrl :=
  match data with
  | [d] => .ok {
      fOptsLen := d &&& ((1 <<< 3) ^^^ (1 <<< 2) ^^^ (1 <<< 1) ^^^ (1 <<< 0))
      FPending := d &&& (1 <<< 4) != 0
      ACK := d &&& (1 <<< 5) != 0
      ADRACKReq := d &&& (1 <<< 6) != 0
      ADR := d &&& (1 <<< 7) != 0 }
  | _ => .error "lorawan: 1 byte of data is expected"

/-- Modelled from the spec: the MAC-command identifier constants live in a
repository file that is not part of `src/`.  The spec pins identifier `0x02`
to `LinkCheckAns` and says the table is "reproducible from the protocol
specification"; the remaining request/answer pairs follow that protocol
numbering (LinkADR = 0x03, DutyCycle = 0x04, RXParamSetup = 0x05,
DevStatus = 0x06, NewChannel = 0x07, RXTimingSetup = 0x08). -/
def LinkCheckAns : Nat := 2

def LinkADRReq : Nat := 3

def LinkADRAns : Nat := 3

def DutyCycleReq : Nat := 4

def RXParamSetupReq : Nat := 5

def RXParamSetupAns : Nat := 5

def DevStatusAns : Nat := 6

def NewChannelReq : Nat := 7

def NewChannelAns : Nat := 7

def RXTimingSetupReq : Nat := 8

/-- Modelled from the spec: the `MACCommand` type is a repository file missing
from `src/`.  Per spec §3/§6 a Command is an identifier byte plus opaque
payload bytes, with the direction flag injected by the owning header. -/
structure MACCommand where
  uplink : Bool
  CID : Nat
  Payload : List Nat
deriving DecidableEq, Repr

/-- Modelled from the spec: `encode(direction) -> bytes` emits the identifier
byte followed by the payload bytes. -/
def MACCommand.MarshalBinary (m : MACCommand) : Except String (List Nat) :=
  .ok (m.CID :: m.Payload)

/-- Modelled from the spec: `decode(bytes, direction) -> Command` reads the
identifier byte and keeps the rest as opaque payload; it needs at least the
identifier byte. -/
def MACCommand.UnmarshalBinary (uplink : Bool) (data : List Nat) :
    Except String MACCommand :=
  match data with
  | [] => .error "lorawan: at least 1 byte of data is expected"
  | c :: p => .ok { uplink := uplink, CID := c, Payload := p }

/-- `FHDR` (frame header).  `Fcnt` is a Go `uint16`; `uplink` drives the
(un)marshaling and is not itself encoded. -/
structure FHDR where
  DevAddr : Nat
  FCtrl : FCtrl
  Fcnt : Nat
  FOpts : List MACCommand
  uplink : Bool
deriving DecidableEq, Repr

/-- The loop of `FHDR.MarshalBinary` over `h.FOpts`: set each command's
direction, marshal it, abort on the first error, concatenate the bytes. -/
def marshalOpts (uplink : Bool) (cmds : List MACCommand) :
    Except String (List Nat) :=
  match cmds with
  | [] => .ok []
  | mac :: rest =>
    match MACCommand.MarshalBinary { mac with uplink := uplink } with
    | .error e => .error e
    | .ok b =>
      match marshalOpts uplink rest with
      | .error e => .error e
      | .ok bs => .ok (b ++ bs)

/-- `FHDR.MarshalBinary`.  The assignment `h.FCtrl.fOptsLen = uint8(len(opts))`
truncates the options length modulo 256 before the `> 15` check, exactly as
the Go `uint8` conversion does. -/
def FHDR.MarshalBinary (h : FHDR) : Except String (List Nat) :=
  match marshalOpts h.uplink h.FOpts with
  | .error e => .error e
  | .ok opts =>
    let fOptsLen := opts.length % 256
    if fOptsLen > 15 then .error "lorawan: max number of FOpts bytes is 15"
    else
      match FCtrl.MarshalBinary { h.FCtrl with fOptsLen := fOptsLen } with
      | .error e => .error e
      | .ok fb =>
        .ok (DevAddr.MarshalBinary h.DevAddr ++ fb ++ putUint16 h.Fcnt ++ opts)

/-- The payload-length resolution of the scan in `FHDR.UnmarshalBinary`:
the Go `switch` over `(direction, identifier)`, defaulting to 0. -/
def pLenFor (uplink : Bool) (c : Nat) : Nat :=
  if !uplink && c == LinkCheckAns then 2
  else if !uplink && c == LinkADRReq then 4
  else if uplink && c == LinkADRAns then 1
  else if !uplink && c == DutyCycleReq then 1
  else if !uplink && c == RXParamSetupReq then 4
  else if uplink && c == RXParamSetupAns then 1
  else if uplink && c == DevStatusAns then 2
  else if !uplink && c == NewChannelReq then 4
  else if uplink && c == NewChannelAns then 1
  else if !uplink && c == RXTimingSetupReq then 1
  else 0

/-- The scan loop of `FHDR.UnmarshalBinary` over `data[7:]`: resolve the
payload length of the identifier under the cursor, check that identifier
plus payload still fit, decode the command, append it to the accumulated
`FOpts`, advance past the payload.  Returns the accumulated commands and an
optional error, mirroring the in-place mutation of the Go loop. -/
def scanFOpts (uplink : Bool) (fopts : List MACCommand) (rest : List Nat) :
    List MACCommand × Option String :=
  match rest with
  | [] => (fopts, none)
  | c :: tail =>
    let pLen := pLenFor uplink c
    if (c :: tail).length < pLen + 1 then
      (fopts, some "lorawan: not enough remaining bytes")
    else
      match MACCommand.UnmarshalBinary uplink ((c :: tail).take (pLen + 1)) with
      | .error e => (fopts, some e)
      | .ok mc => scanFOpts uplink (fopts ++ [mc]) ((c :: tail).drop (pLen + 1))
termination_by rest.length
decreasing_by simp [List.length_drop]; omega

/-- `FHDR.UnmarshalBinary`.  The Go method mutates `h` through a pointer
receiver; the model returns the final header state paired with the optional
error, so a failed decode still exhibits the fields written before the
failure. -/
def FHDR.UnmarshalBinary (h : FHDR) (data : List Nat) : FHDR × Option String :=
  if data.length < 7 then (h, some "lorawan: at least 7 bytes are expected")
  else
    match DevAddr.UnmarshalBinary (data.take 4) with
    | .error e => (h, some e)
    | .ok a =>
      let h1 : FHDR := { h with DevAddr := a }
      match FCtrl.UnmarshalBinary ((data.drop 4).take 1) with
      | .error e => (h1, some e)
      | .ok c =>
        let h2 : FHDR := { h1 with FCtrl := c }
        -- data has at least 7 bytes here, so data[5:7] always has exactly 2
        -- bytes and the fallback branch of the match is unreachable
        let cnt : Nat :=
          match (data.drop 5).take 2 with
          | [c0, c1] => getUint16 c0 c1
          | _ => 0
        let h3 : FHDR := { h2 with Fcnt := cnt }
        let r := scanFOpts h3.uplink h3.FOpts (data.drop 7)
        ({ h3 with FOpts := r.1 }, r.2)

instance {e a : Type} [DecidableEq e] [DecidableEq a] : DecidableEq (Except e a) :=
  fun x y =>
    match x, y with
    | .error u, .error v =>
      if h : u = v then isTrue (by rw [h]) else isFalse (by simp [h])
    | .ok u, .ok v =>
      if h : u = v then isTrue (by rw [h]) else isFalse (by simp [h])
    | .error _, .ok _ => isFalse (by simp)
    | .ok _, .error _ => isFalse (by simp)

/-- The byte stream produced by marshaling a command list: identifier byte
followed by payload bytes, per command, concatenated. -/
def optsBytes : List MACCommand → List Nat
  | [] => []
  | m :: rest => m.CID :: (m.Payload ++ optsBytes rest)

/-- Well-formedness of a command list for a direction: every command's
payload has exactly the length the scan's table resolves for its identifier.
This is spec §3's Command invariant ("length of payload is fully determined
by the (identifier, direction) pair"). -/
def optsWF (uplink : Bool) (cmds : List MACCommand) : Bool :=
  cmds.all (fun m => m.Payload.length == pLenFor uplink m.CID)

/-- Success predicate of the scan loop on an option byte stream: the stream
is consumed in identifier-plus-resolved-payload steps with every step's
truncation check passing. -/
def scanOKb (uplink : Bool) (rest : List Nat) : Bool :=
  match rest with
  | [] => true
  | c :: tail =>
    if (c :: tail).length < pLenFor uplink c + 1 then false
    else scanOKb uplink ((c :: tail).drop (pLenFor uplink c + 1))
termination_by rest.length
decreasing_by simp [List.length_drop]; omega

/-- The (direction, identifier) pairs present in the scan's length table. -/
def tableHit (uplink : Bool) (c : Nat) : Bool :=
  (!uplink && (c == LinkCheckAns || c == LinkADRReq || c == DutyCycleReq ||
    c == RXParamSetupReq || c == NewChannelReq || c == RXTimingSetupReq)) ||
  (uplink && (c == LinkADRAns || c == RXParamSetupAns || c == DevStatusAns ||
    c == NewChannelAns))

/-- The flag byte `FCtrl.MarshalBinary` emits when its range check passes. -/
def fctrlByte (c : FCtrl) : Nat :=
  let b0 := c.fOptsLen
  let b1 := if c.FPending then b0 ^^^ (1 <<< 4) else b0
  let b2 := if c.ACK then b1 ^^^ (1 <<< 5) else b1
  let b3 := if c.ADRACKReq then b2 ^^^ (1 <<< 6) else b2
  if c.ADR then b3 ^^^ (1 <<< 7) else b3

/-! ### Basic lemmas about the leaf codecs -/

theorem fctrl_marshal_eq (c : FCtrl) :
    FCtrl.MarshalBinary c =
      if c.fOptsLen > 15 then Except.error "lorawan: max value of FOptsLen is 15"
      else Except.ok [fctrlByte c] := rfl

theorem devaddr_roundtrip (a : Nat) (ha : a < 4294967296) :
    DevAddr.UnmarshalBinary (DevAddr.MarshalBinary a) = Except.ok a := by
  simp [DevAddr.MarshalBinary, DevAddr.UnmarshalBinary, putUint32, getUint32]
  omega

theorem fctrl_roundtrip (c : FCtrl) (fb : List Nat)
    (hfb : FCtrl.MarshalBinary c = Except.ok fb) :
    FCtrl.UnmarshalBinary fb = Except.ok c := by
  obtain ⟨a, b, k, d, n⟩ := c
  by_cases hn : n ≤ 15
  · interval_cases n <;> revert hfb <;> cases a <;> cases b <;> cases k <;> cases d <;>
      (intro hfb; simp [FCtrl.MarshalBinary] at hfb; subst hfb; decide)
  · simp [FCtrl.MarshalBinary, show n > 15 by omega] at hfb

theorem marshalOpts_eq (u : Bool) (cmds : List MACCommand) :
    marshalOpts u cmds = Except.ok (optsBytes cmds) := by
  induction cmds with
  | nil => rfl
  | cons m rest ih => simp [marshalOpts, MACCommand.MarshalBinary, optsBytes, ih]

theorem fhdr_marshal_eq (h : FHDR) (hlen : (optsBytes h.FOpts).length ≤ 15) :
    FHDR.MarshalBinary h =
      Except.ok (putUint32 h.DevAddr ++
        [fctrlByte { h.FCtrl with fOptsLen := (optsBytes h.FOpts).length }] ++
        putUint16 h.Fcnt ++ optsBytes h.FOpts) := by
  have hm : (optsBytes h.FOpts).length % 256 = (optsBytes h.FOpts).length :=
    Nat.mod_eq_of_lt (by omega)
  simp [FHDR.MarshalBinary, marshalOpts_eq, hm, show ¬((optsBytes h.FOpts).length > 15) by omega,
    fctrl_marshal_eq, DevAddr.MarshalBinary]

/-! ### Scan lemmas -/

theorem scanFOpts_nil (u : Bool) (f : List MACCommand) :
    scanFOpts u f [] = (f, none) := by
  simp [scanFOpts]

theorem scanFOpts_cons (u : Bool) (f : List MACCommand) (c : Nat) (tail : List Nat) :
    scanFOpts u f (c :: tail) =
      if tail.length < pLenFor u c then
        (f, some "lorawan: not enough remaining bytes")
      else
        scanFOpts u (f ++ [⟨u, c, tail.take (pLenFor u c)⟩])
          (tail.drop (pLenFor u c)) := by
  rw [scanFOpts]
  simp only [List.length_cons, MACCommand.UnmarshalBinary, List.take_succ_cons,
    List.drop_succ_cons, Nat.add_lt_add_iff_right]

theorem scanFOpts_acc_aux (n : Nat) : ∀ (rest : List Nat), rest.length ≤ n →
    ∀ (u : Bool) (f : List MACCommand),
      scanFOpts u f rest =
        (f ++ (scanFOpts u [] rest).1, (scanFOpts u [] rest).2) := by
  induction n with
  | zero =>
    intro rest hr u f
    have : rest = [] := List.eq_nil_of_length_eq_zero (Nat.le_zero.mp hr)
    subst this
    simp [scanFOpts_nil]
  | succ n ih =>
    intro rest hr u f
    match rest with
    | [] => simp [scanFOpts_nil]
    | c :: tail =>
      rw [scanFOpts_cons, scanFOpts_cons]
      by_cases hc : tail.length < pLenFor u c
      · simp [hc]
      · simp only [hc, if_false, if_neg]
        have hlen : (tail.drop (pLenFor u c)).length ≤ n := by
          simp only [List.length_cons] at hr
          simp [List.length_drop]
          omega
        have h1 := ih (tail.drop (pLenFor u c)) hlen u
          (f ++ [(⟨u, c, tail.take (pLenFor u c)⟩ : MACCommand)])
        have h2 := ih (tail.drop (pLenFor u c)) hlen u
          ([] ++ [(⟨u, c, tail.take (pLenFor u c)⟩ : MACCommand)])
        rw [h1, h2]
        simp

theorem scanFOpts_acc (u : Bool) (f : List MACCommand) (rest : List Nat) :
    scanFOpts u f rest =
      (f ++ (scanFOpts u [] rest).1, (scanFOpts u [] rest).2) :=
  scanFOpts_acc_aux rest.length rest le_rfl u f

theorem scanOKb_nil (u : Bool) : scanOKb u [] = true := by
  simp [scanOKb]

theorem scanOKb_cons (u : Bool) (c : Nat) (tail : List Nat) :
    scanOKb u (c :: tail) =
      if tail.length < pLenFor u c then false
      else scanOKb u (tail.drop (pLenFor u c)) := by
  rw [scanOKb]
  simp only [List.length_cons, List.drop_succ_cons, Nat.add_lt_add_iff_right]

theorem scanFOpts_none_of_scanOKb_aux (n : Nat) : ∀ (rest : List Nat),
    rest.length ≤ n → ∀ (u : Bool) (f : List MACCommand),
      scanOKb u rest = true → (scanFOpts u f rest).2 = none := by
  induction n with
  | zero =>
    intro rest hr u f _
    have : rest = [] := List.eq_nil_of_length_eq_zero (Nat.le_zero.mp hr)
    subst this
    simp [scanFOpts_nil]
  | succ n ih =>
    intro rest hr u f hok
    match rest with
    | [] => simp [scanFOpts_nil]
    | c :: tail =>
      rw [scanOKb_cons] at hok
      rw [scanFOpts_cons]
      by_cases hc : tail.length < pLenFor u c
      · simp [hc] at hok
      · simp only [hc, if_false] at hok ⊢
        have hlen : (tail.drop (pLenFor u c)).length ≤ n := by
          simp only [List.length_cons] at hr
          simp [List.length_drop]
          omega
        exact ih _ hlen u _ hok

theorem scanFOpts_none_of_scanOKb (u : Bool) (f : List MACCommand)
    (rest : List Nat) (hok : scanOKb u rest = true) :
    (scanFOpts u f rest).2 = none :=
  scanFOpts_none_of_scanOKb_aux rest.length rest le_rfl u f hok

theorem scanFOpts_append_err_aux (n : Nat) : ∀ (good : List Nat),
    good.length ≤ n → ∀ (u : Bool) (f : List MACCommand) (rest : List Nat),
      scanOKb u good = true →
      (scanFOpts u f (good ++ rest)).2 = (scanFOpts u [] rest).2 := by
  induction n with
  | zero =>
    intro good hg u f rest _
    have : good = [] := List.eq_nil_of_length_eq_zero (Nat.le_zero.mp hg)
    subst this
    rw [List.nil_append, scanFOpts_acc]
  | succ n ih =>
    intro good hg u f rest hok
    match good with
    | [] => rw [List.nil_append, scanFOpts_acc]
    | c :: tail =>
      rw [scanOKb_cons] at hok
      by_cases hc : tail.length < pLenFor u c
      · simp [hc] at hok
      · simp only [hc, if_false] at hok
        rw [List.cons_append, scanFOpts_cons]
        have hfit : ¬ (tail ++ rest).length < pLenFor u c := by
          simp [List.length_append]
          omega
        simp only [hfit, if_false]
        rw [List.take_append_eq_append_take, List.drop_append_eq_append_drop]
        have ht : pLenFor u c - tail.length = 0 := by omega
        rw [ht]
        simp only [List.take_zero, List.drop_zero, List.append_nil]
        have hlen : (tail.drop (pLenFor u c)).length ≤ n := by
          simp only [List.length_cons] at hg
          simp [List.length_drop]
          omega
        exact ih _ hlen u _ rest hok

theorem scanFOpts_append_err (u : Bool) (f : List MACCommand)
    (good rest : List Nat) (hok : scanOKb u good = true) :
    (scanFOpts u f (good ++ rest)).2 = (scanFOpts u [] rest).2 :=
  scanFOpts_append_err_aux good.length good le_rfl u f rest hok

theorem scanFOpts_optsBytes (u : Bool) (cmds : List MACCommand) :
    optsWF u cmds = true → ∀ (f : List MACCommand),
      scanFOpts u f (optsBytes cmds) =
        (f ++ cmds.map (fun m => { m with uplink := u }), none) := by
  induction cmds with
  | nil =>
    intro _ f
    simp [optsBytes, scanFOpts_nil]
  | cons m rest ih =>
    intro hwf f
    simp only [optsWF, List.all_cons, Bool.and_eq_true, beq_iff_eq] at hwf
    obtain ⟨hm, hrest⟩ := hwf
    rw [optsBytes, scanFOpts_cons]
    have hfit : ¬ (m.Payload ++ optsBytes rest).length < pLenFor u m.CID := by
      simp [List.length_append]
      omega
    simp only [hfit, if_false]
    rw [List.take_append_eq_append_take, List.drop_append_eq_append_drop]
    have ht : pLenFor u m.CID - m.Payload.length = 0 := by omega
    have htake : (m.Payload).take (pLenFor u m.CID) = m.Payload := by
      rw [← hm]
      exact List.take_length ..
    have hdrop : (m.Payload).drop (pLenFor u m.CID) = [] := by
      rw [← hm]
      exact List.drop_length ..
    rw [ht, htake, hdrop]
    simp only [List.take_zero, List.drop_zero, List.append_nil, List.nil_append]
    rw [ih (by simpa [optsWF] using hrest)]
    simp [List.append_assoc]

theorem fhdr_unmarshal_eq (h : FHDR) (d0 d1 d2 d3 d4 d5 d6 : Nat)
    (rest : List Nat) :
    FHDR.UnmarshalBinary h (d0 :: d1 :: d2 :: d3 :: d4 :: d5 :: d6 :: rest) =
      ({ DevAddr := getUint32 d0 d1 d2 d3
         FCtrl := ⟨d4 &&& 128 != 0, d4 &&& 64 != 0, d4 &&& 32 != 0,
           d4 &&& 16 != 0, d4 &&& 15⟩
         Fcnt := getUint16 d5 d6
         FOpts := (scanFOpts h.uplink h.FOpts rest).1
         uplink := h.uplink },
       (scanFOpts h.uplink h.FOpts rest).2) := by
  simp [FHDR.UnmarshalBinary, DevAddr.UnmarshalBinary, FCtrl.UnmarshalBinary]

theorem exists_seven (data : List Nat) (hlen : 7 ≤ data.length) :
    ∃ d0 d1 d2 d3 d4 d5 d6 rest,
      data = d0 :: d1 :: d2 :: d3 :: d4 :: d5 :: d6 :: rest := by
  rcases data with _ | ⟨d0, _ | ⟨d1, _ | ⟨d2, _ | ⟨d3, _ | ⟨d4, _ | ⟨d5, _ | ⟨d6, rest⟩⟩⟩⟩⟩⟩⟩ <;>
    simp_all

/-! ### Claim theorems -/

/-- C3: encoding the frame header with DevAddr `0x01020304`, only the ADR
flag set, counter 5 and no commands yields exactly the seven bytes
`04 03 02 01 80 05 00`. -/
theorem C3_concreteEncodeVector :
    FHDR.MarshalBinary ⟨0x01020304, ⟨true, false, false, false, 0⟩, 5, [], false⟩
      = Except.ok [0x04, 0x03, 0x02, 0x01, 0x80, 0x05, 0x00] := by decide

/-- A header whose 256 one-byte commands serialize to 256 bytes of options:
the Go `uint8(len(opts))` conversion truncates 256 to 0, bypassing the
15-byte range check. -/
def hdr256 : FHDR :=
  ⟨0, ⟨false, false, false, false, 0⟩, 0, List.replicate 256 ⟨false, 0, []⟩, false⟩

/-- A header whose 16 one-byte commands serialize to 16 bytes of options. -/
def hdr16 : FHDR :=
  ⟨0, ⟨false, false, false, false, 0⟩, 0, List.replicate 16 ⟨false, 0, []⟩, false⟩

/-- A header whose 15 one-byte commands serialize to 15 bytes of options. -/
def hdr15 : FHDR :=
  ⟨0, ⟨false, false, false, false, 0⟩, 0, List.replicate 15 ⟨false, 0, []⟩, false⟩

/-- C4: the claim "encode fails with RangeError for every command stream of
16 or more bytes" is contradicted by the code: the check compares
`uint8(len(opts))`, so at 256 option bytes the length wraps to 0 and encoding
succeeds, emitting a 263-byte output.  The check does hold between 16 and
255 bytes, and 15 bytes succeed, as the other two conjuncts show. -/
theorem C4_sizeCheckBypassedAt256 :
    (optsBytes hdr256.FOpts).length = 256 ∧
    FHDR.MarshalBinary hdr256 = Except.ok (List.replicate 263 0) ∧
    FHDR.MarshalBinary hdr16 =
      Except.error "lorawan: max number of FOpts bytes is 15" ∧
    FHDR.MarshalBinary hdr15 =
      Except.ok ([0, 0, 0, 0, 15, 0, 0] ++ List.replicate 15 0) := by decide

/-- C5: the claim "the emitted options-length nibble equals the byte length
of the serialized command stream" is contradicted at the same wrap-around
input: 256 option bytes are emitted while the flags byte at offset 4 carries
options-length 0. -/
theorem C5_optsLenNibbleWrapsAt256 :
    FHDR.MarshalBinary hdr256 = Except.ok (List.replicate 263 0) ∧
    (List.replicate 263 0)[4]! &&& 15 = 0 ∧
    (optsBytes hdr256.FOpts).length = 256 ∧ (0 : Nat) ≠ 256 := by decide

/-- C9: the Go method has a value receiver, so the embedding is a pure
function of the header value and the caller's stored fields are unchanged by
a call; the recomputation of `fOptsLen` happens only on the local copy, which
is witnessed by the output being independent of whatever `fOptsLen` value the
header held before encoding. -/
theorem C9_encodeIgnoresStoredFOptsLen (h : FHDR) (v : Nat) :
    FHDR.MarshalBinary { h with FCtrl := { h.FCtrl with fOptsLen := v } } =
      FHDR.MarshalBinary h := by
  rcases h with ⟨a, ⟨f1, f2, f3, f4, n⟩, cnt, opts, up⟩
  cases hm : marshalOpts up opts <;> simp [FHDR.MarshalBinary, hm]

/-- C2 counterexample: decoding the 8-byte input
`04 03 02 01 80 05 00 02` as downlink fails (identifier `0x02` resolves to a
2-byte payload but no byte remains), yet the header is not left as it was:
its DevAddr, FCtrl and Fcnt have already been overwritten. -/
theorem C2_counterexample :
    (FHDR.UnmarshalBinary ⟨0, ⟨false, false, false, false, 0⟩, 0, [], false⟩
        [4, 3, 2, 1, 128, 5, 0, 2]).2 = some "lorawan: not enough remaining bytes" ∧
    (FHDR.UnmarshalBinary ⟨0, ⟨false, false, false, false, 0⟩, 0, [], false⟩
        [4, 3, 2, 1, 128, 5, 0, 2]).1 ≠
      ⟨0, ⟨false, false, false, false, 0⟩, 0, [], false⟩ := by
  rw [fhdr_unmarshal_eq]
  constructor
  · simp [scanFOpts, pLenFor, LinkCheckAns]
  · intro heq
    have hda := congrArg FHDR.DevAddr heq
    simp [getUint32] at hda

/-- C2 amended: a failed decode may leave the header partially populated
(prefix fields and previously scanned commands); only an input shorter than
7 bytes leaves the header exactly as it was. -/
theorem C2_amended_shortInputLeavesHeaderUntouched (h : FHDR) (data : List Nat)
    (hlen : data.length < 7) :
    FHDR.UnmarshalBinary h data =
      (h, some "lorawan: at least 7 bytes are expected") := by
  simp [FHDR.UnmarshalBinary, hlen]

theorem C2_amended_witness :
    (([(1 : Nat), 2, 3]).length < 7) ∧
    FHDR.UnmarshalBinary ⟨0, ⟨false, false, false, false, 0⟩, 0, [], false⟩ [1, 2, 3]
      = (⟨0, ⟨false, false, false, false, 0⟩, 0, [], false⟩,
         some "lorawan: at least 7 bytes are expected") :=
  ⟨by decide, C2_amended_shortInputLeavesHeaderUntouched _ _ (by decide)⟩

/-- C6: the decode scan enforces no 15-byte ceiling: any input of at least
7 bytes whose option bytes the scan consumes cleanly decodes without error,
however long the option stream is. -/
theorem C6_noUpperBoundOnDecode (h : FHDR) (data : List Nat)
    (hlen : 7 ≤ data.length) (hok : scanOKb h.uplink (data.drop 7) = true) :
    (FHDR.UnmarshalBinary h data).2 = none := by
  obtain ⟨d0, d1, d2, d3, d4, d5, d6, rest, rfl⟩ := exists_seven data hlen
  rw [fhdr_unmarshal_eq]
  simp only [List.drop_succ_cons, List.drop_zero] at hok
  exact scanFOpts_none_of_scanOKb _ _ _ hok

theorem C6_witness :
    7 ≤ ([(0 : Nat), 0, 0, 0, 0, 0, 0,
           0, 0, 0, 0, 0, 0, 0, 0, 0, 0, 0, 0, 0, 0, 0, 0, 0, 0, 0, 0]).length ∧
    scanOKb true (([(0 : Nat), 0, 0, 0, 0, 0, 0,
           0, 0, 0, 0, 0, 0, 0, 0, 0, 0, 0, 0, 0, 0, 0, 0, 0, 0, 0, 0]).drop 7) = true ∧
    (FHDR.UnmarshalBinary ⟨0, ⟨false, false, false, false, 0⟩, 0, [], true⟩
        [0, 0, 0, 0, 0, 0, 0,
         0, 0, 0, 0, 0, 0, 0, 0, 0, 0, 0, 0, 0, 0, 0, 0, 0, 0, 0, 0]).2 = none := by
  have hok : scanOKb true (([(0 : Nat), 0, 0, 0, 0, 0, 0,
      0, 0, 0, 0, 0, 0, 0, 0, 0, 0, 0, 0, 0, 0, 0, 0, 0, 0, 0, 0]).drop 7) = true := by
    simp [scanOKb, pLenFor, LinkCheckAns, LinkADRReq, LinkADRAns, DutyCycleReq,
      RXParamSetupReq, RXParamSetupAns, DevStatusAns, NewChannelReq,
      NewChannelAns, RXTimingSetupReq]
  exact ⟨by decide, hok, C6_noUpperBoundOnDecode _ _ (by decide) hok⟩

/-- C7: at any scan position reached after a cleanly consumed prefix of
option bytes, if the current identifier's resolved payload length plus the
identifier byte exceed the remaining bytes, the decode fails with the
truncation error. -/
theorem C7_truncationDetected (h : FHDR) (data good extra : List Nat) (c : Nat)
    (hlen : 7 ≤ data.length) (hsplit : data.drop 7 = good ++ c :: extra)
    (hgood : scanOKb h.uplink good = true)
    (hshort : extra.length < pLenFor h.uplink c) :
    (FHDR.UnmarshalBinary h data).2 = some "lorawan: not enough remaining bytes" := by
  obtain ⟨d0, d1, d2, d3, d4, d5, d6, rest, rfl⟩ := exists_seven data hlen
  simp only [List.drop_succ_cons, List.drop_zero] at hsplit
  subst hsplit
  rw [fhdr_unmarshal_eq]
  simp only []
  rw [scanFOpts_append_err _ _ _ _ hgood, scanFOpts_cons]
  simp [hshort]

theorem C7_witness :
    7 ≤ ([(0 : Nat), 0, 0, 0, 0, 0, 0, 2]).length ∧
    ([(0 : Nat), 0, 0, 0, 0, 0, 0, 2]).drop 7 = [] ++ 2 :: [] ∧
    scanOKb false [] = true ∧
    ([] : List Nat).length < pLenFor false 2 ∧
    (FHDR.UnmarshalBinary ⟨0, ⟨false, false, false, false, 0⟩, 0, [], false⟩
        [0, 0, 0, 0, 0, 0, 0, 2]).2 = some "lorawan: not enough remaining bytes" :=
  ⟨by decide, by decide, scanOKb_nil false, by decide,
    C7_truncationDetected ⟨0, ⟨false, false, false, false, 0⟩, 0, [], false⟩
      _ [] [] 2 (by decide) (by decide) (scanOKb_nil false) (by decide)⟩

/-- C8: identifier `0x02` resolves to payload length 2 as downlink
(LinkCheckAns) and 0 as uplink; every (direction, identifier) pair absent
from the table resolves to 0; and the same option bytes `02 09 09` decode
without error in both directions. -/
theorem C8_directionAwareLengths (up : Bool) (c : Nat)
    (hmiss : tableHit up c = false) :
    pLenFor false 2 = 2 ∧ pLenFor true 2 = 0 ∧
    pLenFor up c = 0 ∧
    (FHDR.UnmarshalBinary ⟨0, ⟨false, false, false, false, 0⟩, 0, [], false⟩
        [0, 0, 0, 0, 0, 0, 0, 2, 9, 9]).2 = none ∧
    (FHDR.UnmarshalBinary ⟨0, ⟨false, false, false, false, 0⟩, 0, [], true⟩
        [0, 0, 0, 0, 0, 0, 0, 2, 9, 9]).2 = none := by
  refine ⟨by decide, by decide, ?_, ?_, ?_⟩
  · cases up <;>
      simp_all [tableHit, pLenFor, LinkCheckAns, LinkADRReq, LinkADRAns,
        DutyCycleReq, RXParamSetupReq, RXParamSetupAns, DevStatusAns,
        NewChannelReq, NewChannelAns, RXTimingSetupReq]
  · rw [fhdr_unmarshal_eq]
    simp [scanFOpts, pLenFor, LinkCheckAns, LinkADRReq, LinkADRAns,
      DutyCycleReq, RXParamSetupReq, RXParamSetupAns, DevStatusAns,
      NewChannelReq, NewChannelAns, RXTimingSetupReq, MACCommand.UnmarshalBinary]
  · rw [fhdr_unmarshal_eq]
    simp [scanFOpts, pLenFor, LinkCheckAns, LinkADRReq, LinkADRAns,
      DutyCycleReq, RXParamSetupReq, RXParamSetupAns, DevStatusAns,
      NewChannelReq, NewChannelAns, RXTimingSetupReq, MACCommand.UnmarshalBinary]

theorem C8_witness :
    tableHit true 200 = false ∧
    (pLenFor false 2 = 2 ∧ pLenFor true 2 = 0 ∧ pLenFor true 200 = 0 ∧
      (FHDR.UnmarshalBinary ⟨0, ⟨false, false, false, false, 0⟩, 0, [], false⟩
          [0, 0, 0, 0, 0, 0, 0, 2, 9, 9]).2 = none ∧
      (FHDR.UnmarshalBinary ⟨0, ⟨false, false, false, false, 0⟩, 0, [], true⟩
          [0, 0, 0, 0, 0, 0, 0, 2, 9, 9]).2 = none) :=
  ⟨by decide, C8_directionAwareLengths true 200 (by decide)⟩

/-- C10: a successful decode appends the scanned commands after whatever
`FOpts` the header already held: the result equals the pre-existing sequence
followed by what a decode into an empty-`FOpts` header would produce. -/
theorem C10_decodeAppendsToFOpts (h : FHDR) (data : List Nat)
    (hok : (FHDR.UnmarshalBinary h data).2 = none) :
    (FHDR.UnmarshalBinary h data).1.FOpts =
      h.FOpts ++ (FHDR.UnmarshalBinary { h with FOpts := [] } data).1.FOpts := by
  by_cases hlen : 7 ≤ data.length
  · obtain ⟨d0, d1, d2, d3, d4, d5, d6, rest, rfl⟩ := exists_seven data hlen
    rw [fhdr_unmarshal_eq, fhdr_unmarshal_eq]
    simp only []
    rw [scanFOpts_acc h.uplink h.FOpts rest]
  · simp [FHDR.UnmarshalBinary, show data.length < 7 by omega] at hok

theorem C10_witness :
    (FHDR.UnmarshalBinary ⟨0, ⟨false, false, false, false, 0⟩, 0, [⟨false, 9, []⟩], false⟩
        [1, 0, 0, 0, 0, 7, 0, 42]).2 = none ∧
    (FHDR.UnmarshalBinary ⟨0, ⟨false, false, false, false, 0⟩, 0, [⟨false, 9, []⟩], false⟩
        [1, 0, 0, 0, 0, 7, 0, 42]).1.FOpts =
      (⟨0, ⟨false, false, false, false, 0⟩, 0, [⟨false, 9, []⟩], false⟩ : FHDR).FOpts ++
        (FHDR.UnmarshalBinary
          { (⟨0, ⟨false, false, false, false, 0⟩, 0, [⟨false, 9, []⟩], false⟩ : FHDR) with
            FOpts := [] } [1, 0, 0, 0, 0, 7, 0, 42]).1.FOpts := by
  have hok : (FHDR.UnmarshalBinary
      ⟨0, ⟨false, false, false, false, 0⟩, 0, [⟨false, 9, []⟩], false⟩
      [1, 0, 0, 0, 0, 7, 0, 42]).2 = none := by
    rw [fhdr_unmarshal_eq]
    simp [scanFOpts, pLenFor, LinkCheckAns, LinkADRReq, LinkADRAns, DutyCycleReq,
      RXParamSetupReq, RXParamSetupAns, DevStatusAns, NewChannelReq,
      NewChannelAns, RXTimingSetupReq, MACCommand.UnmarshalBinary]
  exact ⟨hok, C10_decodeAppendsToFOpts _ _ hok⟩

/-- C1: for a frame header with an in-range address and counter whose
commands respect the identifier-to-payload-length table for the header's
direction and serialize to at most 15 bytes, decoding the encoder's output
with the same direction flag (into a header with empty `FOpts`) succeeds and
reconstructs the address, the counter, the four flag booleans and the
command sequence (identifiers and payloads). -/
theorem C1_roundtrip (h h0 : FHDR) (out : List Nat)
    (haddr : h.DevAddr < 4294967296) (hcnt : h.Fcnt < 65536)
    (hwf : optsWF h.uplink h.FOpts = true)
    (hlen : (optsBytes h.FOpts).length ≤ 15)
    (hup : h0.uplink = h.uplink) (hop : h0.FOpts = [])
    (henc : FHDR.MarshalBinary h = Except.ok out) :
    (FHDR.UnmarshalBinary h0 out).2 = none ∧
    (FHDR.UnmarshalBinary h0 out).1.DevAddr = h.DevAddr ∧
    (FHDR.UnmarshalBinary h0 out).1.Fcnt = h.Fcnt ∧
    (FHDR.UnmarshalBinary h0 out).1.FCtrl.ADR = h.FCtrl.ADR ∧
    (FHDR.UnmarshalBinary h0 out).1.FCtrl.ADRACKReq = h.FCtrl.ADRACKReq ∧
    (FHDR.UnmarshalBinary h0 out).1.FCtrl.ACK = h.FCtrl.ACK ∧
    (FHDR.UnmarshalBinary h0 out).1.FCtrl.FPending = h.FCtrl.FPending ∧
    (FHDR.UnmarshalBinary h0 out).1.FOpts.map (fun m => (m.CID, m.Payload)) =
      h.FOpts.map (fun m => (m.CID, m.Payload)) := by
  rcases h with ⟨a, ⟨x1, x2, x3, x4, n0⟩, cnt, cmds, up⟩
  rcases h0 with ⟨a0, cf0, cnt0, cmds0, up0⟩
  simp only [] at haddr hcnt hwf hlen hup hop henc
  subst hup
  subst hop
  rw [fhdr_marshal_eq _ hlen] at henc
  simp only [] at henc
  rw [Except.ok.injEq] at henc
  subst henc
  have hcf : ({ (⟨x1, x2, x3, x4, n0⟩ : FCtrl) with
      fOptsLen := (optsBytes cmds).length } : FCtrl)
      = ⟨x1, x2, x3, x4, (optsBytes cmds).length⟩ := rfl
  rw [hcf]
  have hfcm : FCtrl.MarshalBinary ⟨x1, x2, x3, x4, (optsBytes cmds).length⟩ =
      Except.ok [fctrlByte ⟨x1, x2, x3, x4, (optsBytes cmds).length⟩] := by
    rw [fctrl_marshal_eq, if_neg]
    simp only []
    omega
  have hfc := fctrl_roundtrip _ _ hfcm
  simp only [FCtrl.UnmarshalBinary, Except.ok.injEq] at hfc
  have hscan := scanFOpts_optsBytes up0 cmds hwf []
  simp only [DevAddr.MarshalBinary, putUint32, putUint16, List.cons_append,
    List.nil_append]
  rw [fhdr_unmarshal_eq]
  simp only [List.nil_append] at hscan
  simp only [hscan]
  refine ⟨by trivial, ?_, ?_, ?_, ?_, ?_, ?_, ?_⟩
  · simp [getUint32]
    omega
  · simp [getUint16]
    omega
  · have := congrArg FCtrl.ADR hfc
    simpa using this
  · have := congrArg FCtrl.ADRACKReq hfc
    simpa using this
  · have := congrArg FCtrl.ACK hfc
    simpa using this
  · have := congrArg FCtrl.FPending hfc
    simpa using this
  · simp [List.map_map, Function.comp]

theorem C1_witness :
    ((0x01020304 : Nat) < 4294967296) ∧ ((5 : Nat) < 65536) ∧
    optsWF false [⟨false, 2, [7, 8]⟩] = true ∧
    (optsBytes [⟨false, 2, [7, 8]⟩]).length ≤ 15 ∧
    FHDR.MarshalBinary
      ⟨0x01020304, ⟨true, false, false, false, 0⟩, 5, [⟨false, 2, [7, 8]⟩], false⟩
      = Except.ok [4, 3, 2, 1, 131, 5, 0, 2, 7, 8] ∧
    ((FHDR.UnmarshalBinary ⟨0, ⟨false, false, false, false, 0⟩, 0, [], false⟩
        [4, 3, 2, 1, 131, 5, 0, 2, 7, 8]).2 = none ∧
     (FHDR.UnmarshalBinary ⟨0, ⟨false, false, false, false, 0⟩, 0, [], false⟩
        [4, 3, 2, 1, 131, 5, 0, 2, 7, 8]).1.DevAddr = 0x01020304 ∧
     (FHDR.UnmarshalBinary ⟨0, ⟨false, false, false, false, 0⟩, 0, [], false⟩
        [4, 3, 2, 1, 131, 5, 0, 2, 7, 8]).1.Fcnt = 5 ∧
     (FHDR.UnmarshalBinary ⟨0, ⟨false, false, false, false, 0⟩, 0, [], false⟩
        [4, 3, 2, 1, 131, 5, 0, 2, 7, 8]).1.FCtrl.ADR = true ∧
     (FHDR.UnmarshalBinary ⟨0, ⟨false, false, false, false, 0⟩, 0, [], false⟩
        [4, 3, 2, 1, 131, 5, 0, 2, 7, 8]).1.FCtrl.ADRACKReq = false ∧
     (FHDR.UnmarshalBinary ⟨0, ⟨false, false, false, false, 0⟩, 0, [], false⟩
        [4, 3, 2, 1, 131, 5, 0, 2, 7, 8]).1.FCtrl.ACK = false ∧
     (FHDR.UnmarshalBinary ⟨0, ⟨false, false, false, false, 0⟩, 0, [], false⟩
        [4, 3, 2, 1, 131, 5, 0, 2, 7, 8]).1.FCtrl.FPending = false ∧
     (FHDR.UnmarshalBinary ⟨0, ⟨false, false, false, false, 0⟩, 0, [], false⟩
        [4, 3, 2, 1, 131, 5, 0, 2, 7, 8]).1.FOpts.map (fun m => (m.CID, m.Payload))
        = [(2, [7, 8])]) := by
  refine ⟨by decide, by decide, by decide, by decide, by decide, ?_⟩
  exact C1_roundtrip
    ⟨0x01020304, ⟨true, false, false, false, 0⟩, 5, [⟨false, 2, [7, 8]⟩], false⟩
    ⟨0, ⟨false, false, false, false, 0⟩, 0, [], false⟩
    [4, 3, 2, 1, 131, 5, 0, 2, 7, 8]
    (by decide) (by decide) (by decide) (by decide) rfl rfl (by decide)
